import Mathlib

/-!
Verification development for the MediaInfo text parser of the
mediainfo-share repository (src/mediainfo_parser.py, src/models.py).

The Python code is shallowly embedded: strings are Lean `String`s, the
Python `str` primitives used by the parser (`strip`, `upper`, `lower`,
`split`, `startswith`, `find`, slicing, `replace`, `in`) are modelled
character-list-wise below, dictionaries with a fixed key set become
structures with `Option String` fields (a `none` field models an absent
key), and the dataclasses of models.py become structures whose
dynamically added attributes (`stream_size`, `default`, `title`,
`forced`) are `Option String` fields defaulting to `none`.
-/

/-- Embedding of Python `str.strip()` on a character list: remove leading
and trailing whitespace. -/
def stripChars (l : List Char) : List Char :=
  ((l.dropWhile Char.isWhitespace).reverse.dropWhile Char.isWhitespace).reverse

/-- Embedding of Python `str.strip()`. -/
def pyStrip (s : String) : String :=
  String.mk (stripChars s.data)

/-- Embedding of Python `str.upper()` (ASCII letters, as `Char.toUpper`). -/
def pyUpper (s : String) : String :=
  String.mk (s.data.map Char.toUpper)

/-- Embedding of Python `str.lower()` (ASCII letters, as `Char.toLower`). -/
def pyLower (s : String) : String :=
  String.mk (s.data.map Char.toLower)

/-- Embedding of Python `ch in s` for a single character. -/
def pyContains (s : String) (c : Char) : Bool :=
  s.data.contains c

/-- Embedding of Python `s.startswith(pre)`. -/
def pyStartsWith (s pre : String) : Bool :=
  pre.data.isPrefixOf s.data

/-- Embedding of Python `s.find(c)` for a character known to occur in `s`
(the parser only slices after an `in` check, so the -1 case is unused). -/
def pyFind (s : String) (c : Char) : Nat :=
  s.data.indexOf c

/-- Splitting a character list at every separator character (separators are
dropped, empty pieces between adjacent separators are kept), the splitting
scheme underlying Python `str.split("\n")` and `str.split()`. -/
def splitOnPred (p : Char → Bool) : List Char → List (List Char)
  | [] => [[]]
  | c :: rest =>
    match splitOnPred p rest with
    | [] => [[]]
    | a :: as => if p c then [] :: a :: as else (c :: a) :: as

/-- Embedding of Python `s.split("\n")`. -/
def pySplitNl (s : String) : List String :=
  (splitOnPred (· == '\n') s.data).map String.mk

/-- Embedding of Python `s.split()`: split on whitespace runs, dropping
empty tokens. -/
def pySplitWs (s : String) : List String :=
  ((splitOnPred Char.isWhitespace s.data).filter (· ≠ [])).map String.mk

/-- Embedding of Python `s.split(":", 1)` guarded by `":" in s`: `none`
when `s` has no colon, otherwise the parts before and after the first
colon. -/
def pySplitColon1 : List Char → Option (List Char × List Char)
  | [] => none
  | c :: rest =>
    if c = ':' then some ([], rest)
    else
      match pySplitColon1 rest with
      | some (a, b) => some (c :: a, b)
      | none => none

/-- Fuel-driven core of Python `str.replace`: replace non-overlapping
occurrences of `pat` left to right. The fuel is the input length, enough
for any non-empty pattern. -/
def replaceAux (pat rep : List Char) : Nat → List Char → List Char
  | 0, l => l
  | _ + 1, [] => []
  | fuel + 1, c :: rest =>
    if pat.isPrefixOf (c :: rest) then
      rep ++ replaceAux pat rep fuel ((c :: rest).drop pat.length)
    else
      c :: replaceAux pat rep fuel rest

/-- Embedding of Python `s.replace(pat, rep)` for non-empty `pat`. -/
def pyReplace (s pat rep : String) : String :=
  String.mk (replaceAux pat.data rep.data s.data.length s.data)

/-! ## Data model (src/models.py, plus the dict shapes built in parse_file) -/

/-- models.py `AudioTrack` dataclass. `stream_size` and `default` are not
declared fields; the parser adds them as dynamic attributes, hence
`Option String`. -/
structure AudioTrack where
  language : String := ""
  format : String := ""
  channels : String := ""
  bit_rate : String := ""
  format_settings : String := ""
  sampling_rate : String := ""
  commercial_name : String := ""
  title : String := ""
  flag : String := ""
  stream_size : Option String := none
  default : Option String := none
deriving DecidableEq

/-- models.py `SubtitleTrack` dataclass (declared fields `language` and
`flag`; `title`, `default`, `forced` are dynamic attributes). -/
structure SubtitleTrack where
  language : String := ""
  flag : String := ""
  title : Option String := none
  default : Option String := none
  forced : Option String := none
deriving DecidableEq

/-- The `info["general"]` dictionary of parse_file; a `none` field is an
absent key. -/
structure GeneralDict where
  format : Option String := none
  duration : Option String := none
  bitrate : Option String := none
  size : Option String := none
  frame_rate : Option String := none
  complete_name : Option String := none
  movie_name : Option String := none
deriving DecidableEq

/-- The `info["video"]` dictionary of parse_file; a `none` field is an
absent key. -/
structure VideoDict where
  format : Option String := none
  width : Option String := none
  height : Option String := none
  aspect_ratio : Option String := none
  frame_rate : Option String := none
  bit_rate : Option String := none
  bit_depth : Option String := none
  hdr_format : Option String := none
  color_primaries : Option String := none
  transfer_characteristics : Option String := none
  title : Option String := none
  stream_size : Option String := none
deriving DecidableEq

/-- The `info` dictionary returned by parse_file. -/
structure InfoDict where
  general : GeneralDict := {}
  video : VideoDict := {}
  audio : List AudioTrack := []
  subtitles : List SubtitleTrack := []
deriving DecidableEq

/-- The `current_track` / `current_track_type` pair of locals of
parse_file; the two are assigned together in the source, so a single sum
captures all reachable combinations. -/
inductive CurrentTrack where
  | none
  | audio (t : AudioTrack)
  | text (t : SubtitleTrack)
deriving DecidableEq

/-- The mutable locals of the parse_file loop. -/
structure ParseState where
  general : GeneralDict := {}
  video : VideoDict := {}
  audio : List AudioTrack := []
  subtitles : List SubtitleTrack := []
  current_section : Option String := Option.none
  current : CurrentTrack := CurrentTrack.none
deriving DecidableEq

/-- Initial state of the parse_file loop. -/
def initState : ParseState := {}

/-! ## Language flags (MediaInfoParser.__init__ / get_language_flag) -/

/-- The `self.language_flags` table of MediaInfoParser.__init__. -/
def language_flags : List (String × String) :=
  [("JP", "🇯🇵"), ("JA", "🇯🇵"), ("EN", "🇺🇸"), ("US", "🇺🇸"),
   ("GB", "🇬🇧"), ("FR", "🇫🇷"), ("ES", "🇪🇸"), ("DE", "🇩🇪"),
   ("IT", "🇮🇹"), ("CN", "🇨🇳"), ("ZH", "🇨🇳"), ("KO", "🇰🇷"),
   ("KR", "🇰🇷"), ("RU", "🇷🇺")]

/-- Embedding of `self.language_flags.get(code, "")`. -/
def lookupFlag (code : String) : String :=
  (language_flags.lookup code).getD ""

/-- MediaInfoParser.get_language_flag. The Python slice
`code[code.find("(") + 1 : code.find(")")]` is `(take j).drop (i + 1)` on
the character list, which is empty whenever `j ≤ i`. -/
def get_language_flag (lang_code : String) : String :=
  if lang_code = "" then ""
  else
    let code := pyUpper (pyStrip lang_code)
    let code :=
      if pyContains code '(' && pyContains code ')' then
        pyStrip (String.mk
          ((code.data.take (code.data.indexOf ')')).drop (code.data.indexOf '(' + 1)))
      else code
    lookupFlag code

/-! ## Key/value handling (MediaInfoParser._parse_key_value) -/

/-- The `main_channel_names` table of the `channel layout` branch. -/
def main_channel_names : List String :=
  ["Lscr", "Rscr", "C", "Lc", "Rc", "L", "R", "Lw", "Rw", "Lss", "Rss",
   "Ls", "Rs", "Lsd", "Rsd", "Lb", "Rb", "Cb", "M"]

/-- The `height_channel_names` table of the `channel layout` branch. -/
def height_channel_names : List String :=
  ["Bfc", "Bfl", "Bfr", "Tfc", "Vhl", "Vhr", "Tfl", "Tfr", "Tsl", "Tsr",
   "Lvs", "Rvs", "Tbl", "Tbr", "Tbc", "Tc"]

/-- The `lfe_channel_names` table of the `channel layout` branch. -/
def lfe_channel_names : List String :=
  ["LFE", "LFE2"]

/-- The token-classification loop of the `channel layout` branch: count a
token in the first matching table, skip it when it is in none. -/
def channelCounts (tokens : List String) : Nat × Nat × Nat :=
  tokens.foldl
    (fun acc channel =>
      if main_channel_names.contains channel then (acc.1 + 1, acc.2.1, acc.2.2)
      else if lfe_channel_names.contains channel then (acc.1, acc.2.1 + 1, acc.2.2)
      else if height_channel_names.contains channel then (acc.1, acc.2.1, acc.2.2 + 1)
      else acc)
    (0, 0, 0)

/-- The label rendered by the `channel layout` branch:
`f"{main}.{lfe}"` with a `.{height}` suffix only when height > 0. -/
def channelLayoutLabel (value : String) : String :=
  let counts := channelCounts (pySplitWs value)
  toString counts.1 ++ "." ++ toString counts.2.1 ++
    (if counts.2.2 > 0 then "." ++ toString counts.2.2 else "")

/-- The `Width`/`Height` normalization of the video section:
`value.replace("pixels", "").replace(" ", "").strip()`. -/
def stripPixels (value : String) : String :=
  pyStrip (pyReplace (pyReplace value "pixels" "") " " "")

/-- The `section == "general"` branch of _parse_key_value (key already
lower-cased). -/
def generalSet (key value : String) (g : GeneralDict) : GeneralDict :=
  if key = "format" then { g with format := some value }
  else if key = "duration" then { g with duration := some value }
  else if key = "overall bit rate" ∨ key = "bit rate" then { g with bitrate := some value }
  else if key = "file size" ∨ key = "size" then { g with size := some value }
  else if key = "frame rate" then { g with frame_rate := some value }
  else if key = "complete name" then { g with complete_name := some value }
  else if key = "movie name" then { g with movie_name := some value }
  else g

/-- The `section == "video"` branch of _parse_key_value. -/
def videoSet (key value : String) (v : VideoDict) : VideoDict :=
  if key = "format" then { v with format := some value }
  else if key = "width" then { v with width := some (stripPixels value) }
  else if key = "height" then { v with height := some (stripPixels value) }
  else if key = "display aspect ratio" ∨ key = "aspect ratio" then
    { v with aspect_ratio := some value }
  else if key = "frame rate" ∨ key = "frame rate mode" then
    { v with frame_rate := some value }
  else if key = "bit rate" ∨ key = "nominal bit rate" then
    { v with bit_rate := some value }
  else if key = "bit depth" ∨ key = "bit depth (bits)" then
    { v with bit_depth := some value }
  else if key = "hdr format" then { v with hdr_format := some value }
  else if key = "color primaries" then { v with color_primaries := some value }
  else if key = "transfer characteristics" then
    { v with transfer_characteristics := some value }
  else if key = "title" then { v with title := some value }
  else if key = "stream size" then { v with stream_size := some value }
  else v

/-- The `section == "audio"` branch of _parse_key_value (mutating the open
audio track). -/
def audioSet (key value : String) (t : AudioTrack) : AudioTrack :=
  if key = "language" then { t with language := value }
  else if key = "format" then { t with format := value }
  else if key = "channel layout" then { t with channels := channelLayoutLabel value }
  else if key = "bit rate" ∨ key = "nominal bit rate" then { t with bit_rate := value }
  else if key = "format settings" then { t with format_settings := value }
  else if key = "sampling rate" ∨ key = "sampling frequency" then
    { t with sampling_rate := value }
  else if key = "commercial name" then { t with commercial_name := value }
  else if key = "title" then { t with title := value }
  else if key = "stream size" then { t with stream_size := some value }
  else if key = "default" then { t with default := some value }
  else t

/-- The `section == "text"` branch of _parse_key_value (mutating the open
subtitle track). -/
def subtitleSet (key value : String) (t : SubtitleTrack) : SubtitleTrack :=
  if key = "language" then { t with language := value }
  else if key = "title" then { t with title := some value }
  else if key = "default" then { t with default := some value }
  else if key = "forced" then { t with forced := some value }
  else t

/-- MediaInfoParser._parse_key_value. The audio/text branches require a
truthy `current_track`; the source only ever pairs section "audio" with an
audio track and section "text" with a subtitle track (both locals are
assigned together), so the mismatched combinations are unreachable and
leave the state unchanged here. -/
def parse_key_value (key value : String) (st : ParseState) : ParseState :=
  let key := pyLower key
  if st.current_section = some "general" then
    { st with general := generalSet key value st.general }
  else if st.current_section = some "video" then
    { st with video := videoSet key value st.video }
  else if st.current_section = some "audio" then
    match st.current with
    | CurrentTrack.audio t => { st with current := CurrentTrack.audio (audioSet key value t) }
    | _ => st
  else if st.current_section = some "text" then
    match st.current with
    | CurrentTrack.text t => { st with current := CurrentTrack.text (subtitleSet key value t) }
    | _ => st
  else st

/-! ## The parse_file loop -/

/-- One iteration of the `for line in content.split("\n")` loop of
MediaInfoParser.parse_file. -/
def parseLine (st : ParseState) (rawLine : String) : ParseState :=
  let line := pyStrip rawLine
  if line = "" then st
  else if line = "General" then
    { st with current_section := some "general", current := CurrentTrack.none }
  else if pyStartsWith line "Video" then
    { st with current_section := some "video", current := CurrentTrack.none }
  else if pyStartsWith line "Audio" then
    let st :=
      match st.current with
      | CurrentTrack.audio t => { st with audio := st.audio ++ [t] }
      | _ => st
    { st with current_section := some "audio", current := CurrentTrack.audio {} }
  else if pyStartsWith line "Text" then
    let st :=
      match st.current with
      | CurrentTrack.audio t => { st with audio := st.audio ++ [t] }
      | CurrentTrack.text t => { st with subtitles := st.subtitles ++ [t] }
      | CurrentTrack.none => st
    { st with current_section := some "text", current := CurrentTrack.text {} }
  else if line = "Menu" then
    let st :=
      match st.current with
      | CurrentTrack.text t => { st with subtitles := st.subtitles ++ [t] }
      | _ => st
    { st with current_section := some "menu", current := CurrentTrack.none }
  else
    match pySplitColon1 line.data with
    | some (k, v) => parse_key_value (pyStrip (String.mk k)) (pyStrip (String.mk v)) st
    | Option.none => st

/-- The whole loop, folded over the lines. -/
def parseLoop (st : ParseState) (lines : List String) : ParseState :=
  lines.foldl parseLine st

/-- The line sequence actually iterated by parse_file: the file content is
re-joined from its stripped non-blank lines and split again, which amounts
to one strip-and-drop-blanks pass over the raw lines. -/
def contentLines (text : String) : List String :=
  ((pySplitNl text).map pyStrip).filter (· ≠ "")

/-- The language-flag post-pass applied to each sealed track list:
`if track.get("language"): track["flag"] = get_language_flag(...)`. -/
def flagAudio (tr : AudioTrack) : AudioTrack :=
  if tr.language ≠ "" then { tr with flag := get_language_flag tr.language } else tr

/-- The language-flag post-pass for subtitle tracks. -/
def flagSubtitle (tr : SubtitleTrack) : SubtitleTrack :=
  if tr.language ≠ "" then { tr with flag := get_language_flag tr.language } else tr

/-- MediaInfoParser.parse_file after the file content has been read:
run the loop, flush a still-open track, run the flag post-pass. -/
def parseMediaInfo (text : String) : InfoDict :=
  let st := parseLoop initState (contentLines text)
  let st :=
    match st.current with
    | CurrentTrack.audio t => { st with audio := st.audio ++ [t] }
    | _ => st
  let st :=
    match st.current with
    | CurrentTrack.text t => { st with subtitles := st.subtitles ++ [t] }
    | _ => st
  { general := st.general, video := st.video,
    audio := st.audio.map flagAudio,
    subtitles := st.subtitles.map flagSubtitle }

/-- MediaInfoParser.parse_file including the initial read: the
`open`/`read` of the source text is the only fallible step (modelled as an
`Except` input); the surrounding try/except re-raises any such failure,
and everything after the read is a total function of the text. -/
def parse_file (source : Except String String) : Except String InfoDict :=
  match source with
  | Except.error e => Except.error e
  | Except.ok text => Except.ok (parseMediaInfo text)

/-! ## Generic list lemmas used throughout -/

theorem dropWhile_head?_false {α : Type} (p : α → Bool) :
    ∀ (l : List α) (x : α), (l.dropWhile p).head? = some x → p x = false := by
  intro l
  induction l with
  | nil => simp
  | cons a l ih =>
    intro x h
    rw [List.dropWhile_cons] at h
    split at h
    · exact ih x h
    · next hpa =>
      simp only [List.head?_cons, Option.some.injEq] at h
      subst h
      exact Bool.eq_false_iff.mpr hpa

theorem dropWhile_eq_self_of_head? {α : Type} (p : α → Bool) (l : List α)
    (h : ∀ x, l.head? = some x → p x = false) : l.dropWhile p = l := by
  cases l with
  | nil => rfl
  | cons a l =>
    rw [List.dropWhile_cons, if_neg]
    simp [h a rfl]

theorem dropWhile_dropWhile {α : Type} (p : α → Bool) (l : List α) :
    (l.dropWhile p).dropWhile p = l.dropWhile p :=
  dropWhile_eq_self_of_head? p _ (fun x hx => dropWhile_head?_false p l x hx)

theorem dropWhile_getLast? {α : Type} (p : α → Bool) (l : List α)
    (h : l.dropWhile p ≠ []) : (l.dropWhile p).getLast? = l.getLast? := by
  obtain ⟨t, ht⟩ := List.dropWhile_suffix (l := l) p
  conv_rhs => rw [← ht]
  rw [List.getLast?_append]
  cases hg : (l.dropWhile p).getLast? with
  | none => exact absurd (List.getLast?_eq_none_iff.mp hg) h
  | some y => simp

theorem stripChars_idem (l : List Char) : stripChars (stripChars l) = stripChars l := by
  by_cases hC : (l.dropWhile Char.isWhitespace).reverse.dropWhile Char.isWhitespace = []
  · simp [stripChars, hC]
  · have hhead : ∀ x,
        ((l.dropWhile Char.isWhitespace).reverse.dropWhile Char.isWhitespace).reverse.head?
          = some x → Char.isWhitespace x = false := by
      intro x hx
      rw [List.head?_reverse] at hx
      rw [dropWhile_getLast? _ _ hC] at hx
      rw [List.getLast?_reverse] at hx
      exact dropWhile_head?_false _ _ _ hx
    show ((((stripChars l).dropWhile Char.isWhitespace).reverse.dropWhile
      Char.isWhitespace).reverse) = stripChars l
    rw [show stripChars l
        = ((l.dropWhile Char.isWhitespace).reverse.dropWhile Char.isWhitespace).reverse
      from rfl]
    rw [dropWhile_eq_self_of_head? _ _ hhead]
    rw [List.reverse_reverse]
    rw [dropWhile_dropWhile]

theorem pyStrip_idem (s : String) : pyStrip (pyStrip s) = pyStrip s := by
  unfold pyStrip
  exact congrArg String.mk (stripChars_idem s.data)

theorem countP_congr_mem {α : Type} {p q : α → Bool} :
    ∀ {l : List α}, (∀ x ∈ l, p x = q x) → l.countP p = l.countP q := by
  intro l
  induction l with
  | nil => intro _; rfl
  | cons a l ih =>
    intro h
    rw [List.countP_cons, List.countP_cons, h a (by simp),
      ih (fun x hx => h x (by simp [hx]))]

/-! ## Line classification -/

/-- The kind of header line recognized by the parse_file branch chain. -/
inductive HeaderKind where
  | general
  | video
  | audio
  | text
  | menu
deriving DecidableEq

/-- Classification of a (stripped) line, mirroring the branch chain of the
parse_file loop: exact `General`, prefix `Video`, prefix `Audio`, prefix
`Text`, exact `Menu`, else not a header. -/
def headerKind (line : String) : Option HeaderKind :=
  if line = "" then Option.none
  else if line = "General" then some HeaderKind.general
  else if pyStartsWith line "Video" then some HeaderKind.video
  else if pyStartsWith line "Audio" then some HeaderKind.audio
  else if pyStartsWith line "Text" then some HeaderKind.text
  else if line = "Menu" then some HeaderKind.menu
  else Option.none

theorem not_prefix_of_head_ne {s p q : String} {pc qc : Char} {pt qt : List Char}
    (hpd : p.data = pc :: pt) (hqd : q.data = qc :: qt) (hne : pc ≠ qc)
    (hp : pyStartsWith s p = true) : pyStartsWith s q = false := by
  by_contra hq
  rw [Bool.not_eq_false] at hq
  unfold pyStartsWith at hp hq
  rw [ List.isPrefixOf_iff_prefix] at hp hq
  obtain ⟨t1, ht1⟩ := hp
  obtain ⟨t2, ht2⟩ := hq
  rw [hpd, List.cons_append] at ht1
  rw [hqd, List.cons_append] at ht2
  rw [← ht1] at ht2
  injection ht2 with h1 _
  exact hne h1.symm

theorem headerKind_eq_audio_iff (s : String) :
    headerKind s = some HeaderKind.audio ↔ pyStartsWith s "Audio" = true := by
  constructor
  · intro h
    unfold headerKind at h
    split at h
    · exact absurd h (by simp)
    split at h
    · exact absurd h (by simp)
    split at h
    · exact absurd h (by simp)
    split at h
    · next h4 => exact h4
    · split at h
      · exact absurd h (by simp)
      · split at h
        · exact absurd h (by simp)
        · exact absurd h (by simp)
  · intro h
    have h0 : s ≠ "" := by
      intro he
      subst he
      exact absurd h (by decide)
    have h1 : s ≠ "General" := by
      intro he
      subst he
      exact absurd h (by decide)
    have h2 : pyStartsWith s "Video" = false :=
      not_prefix_of_head_ne rfl rfl (by decide) h
    unfold headerKind
    rw [if_neg h0, if_neg h1, if_neg (by simp [h2]), if_pos h]

theorem headerKind_eq_text_iff (s : String) :
    headerKind s = some HeaderKind.text ↔ pyStartsWith s "Text" = true := by
  constructor
  · intro h
    unfold headerKind at h
    split at h
    · exact absurd h (by simp)
    split at h
    · exact absurd h (by simp)
    split at h
    · exact absurd h (by simp)
    split at h
    · exact absurd h (by simp)
    · split at h
      · next h5 => exact h5
      · split at h
        · exact absurd h (by simp)
        · exact absurd h (by simp)
  · intro h
    have h0 : s ≠ "" := by
      intro he
      subst he
      exact absurd h (by decide)
    have h1 : s ≠ "General" := by
      intro he
      subst he
      exact absurd h (by decide)
    have h2 : pyStartsWith s "Video" = false :=
      not_prefix_of_head_ne rfl rfl (by decide) h
    have h3 : pyStartsWith s "Audio" = false :=
      not_prefix_of_head_ne rfl rfl (by decide) h
    unfold headerKind
    rw [if_neg h0, if_neg h1, if_neg (by simp [h2]), if_neg (by simp [h3]), if_pos h]

/-- The lines actually iterated are already stripped. -/
theorem contentLines_stripped {text : String} :
    ∀ l ∈ contentLines text, pyStrip l = l := by
  intro l hl
  unfold contentLines at hl
  rw [List.mem_filter] at hl
  obtain ⟨hm, _⟩ := hl
  rw [List.mem_map] at hm
  obtain ⟨raw, _, rfl⟩ := hm
  exact pyStrip_idem raw

/-- The parse_file loop body, re-expressed as a dispatch on the line
classification: this is the same branch chain, stated once so the
state-machine inductions can case on the header kind. -/
theorem parseLine_eq (st : ParseState) (l : String) :
    parseLine st l =
      match headerKind (pyStrip l) with
      | some HeaderKind.general =>
          { st with current_section := some "general", current := CurrentTrack.none }
      | some HeaderKind.video =>
          { st with current_section := some "video", current := CurrentTrack.none }
      | some HeaderKind.audio =>
          let st' :=
            match st.current with
            | CurrentTrack.audio t => { st with audio := st.audio ++ [t] }
            | _ => st
          { st' with current_section := some "audio", current := CurrentTrack.audio {} }
      | some HeaderKind.text =>
          let st' :=
            match st.current with
            | CurrentTrack.audio t => { st with audio := st.audio ++ [t] }
            | CurrentTrack.text t => { st with subtitles := st.subtitles ++ [t] }
            | CurrentTrack.none => st
          { st' with current_section := some "text", current := CurrentTrack.text {} }
      | some HeaderKind.menu =>
          let st' :=
            match st.current with
            | CurrentTrack.text t => { st with subtitles := st.subtitles ++ [t] }
            | _ => st
          { st' with current_section := some "menu", current := CurrentTrack.none }
      | Option.none =>
          match pySplitColon1 (pyStrip l).data with
          | some (k, v) => parse_key_value (pyStrip (String.mk k)) (pyStrip (String.mk v)) st
          | Option.none => st := by
  unfold parseLine headerKind
  by_cases h0 : pyStrip l = ""
  · rw [h0]
    rfl
  by_cases h1 : pyStrip l = "General"
  · rw [h1]
    rfl
  by_cases h2 : pyStartsWith (pyStrip l) "Video" = true
  · simp only [if_neg h0, if_neg h1, h2, if_true]
  have hf2 : pyStartsWith (pyStrip l) "Video" = false := Bool.eq_false_iff.mpr h2
  by_cases h3 : pyStartsWith (pyStrip l) "Audio" = true
  · simp only [if_neg h0, if_neg h1, hf2, Bool.false_eq_true, if_false, h3, if_true]
  have hf3 : pyStartsWith (pyStrip l) "Audio" = false := Bool.eq_false_iff.mpr h3
  by_cases h4 : pyStartsWith (pyStrip l) "Text" = true
  · simp only [if_neg h0, if_neg h1, hf2, hf3, Bool.false_eq_true, if_false, h4, if_true]
  have hf4 : pyStartsWith (pyStrip l) "Text" = false := Bool.eq_false_iff.mpr h4
  by_cases h5 : pyStrip l = "Menu"
  · rw [h5]
    rfl
  · simp only [if_neg h0, if_neg h1, hf2, hf3, hf4, Bool.false_eq_true, if_false, if_neg h5]

/-! ## Track counting (state-machine invariant behind the count claims) -/

/-- The kind of an open track. -/
inductive TrackKind where
  | audio
  | text
deriving DecidableEq

/-- The kind of the currently open track, if any. -/
def openKind : CurrentTrack → Option TrackKind
  | CurrentTrack.none => Option.none
  | CurrentTrack.audio _ => some TrackKind.audio
  | CurrentTrack.text _ => some TrackKind.text

/-- 1 when a track of kind `tk` is open, else 0. -/
def openCount (k : Option TrackKind) (tk : TrackKind) : Nat :=
  if k = some tk then 1 else 0

/-- Header kinds that seal (rather than drop) an open audio track:
an `Audio` or `Text` boundary appends it, while `General`, `Video` and
`Menu` headers discard it. -/
def keepsAudio : HeaderKind → Bool
  | HeaderKind.audio => true
  | HeaderKind.text => true
  | _ => false

/-- Header kinds that seal (rather than drop) an open subtitle track:
a `Text` boundary or a `Menu` header appends it, while `General`, `Video`
and `Audio` headers discard it. -/
def keepsText : HeaderKind → Bool
  | HeaderKind.text => true
  | HeaderKind.menu => true
  | _ => false

/-- The track kind left open after a header line. -/
def nextOpen : HeaderKind → Option TrackKind
  | HeaderKind.audio => some TrackKind.audio
  | HeaderKind.text => some TrackKind.text
  | _ => Option.none

/-- The header sequence of a line list. -/
def headersOf (lines : List String) : List HeaderKind :=
  lines.filterMap (fun l => headerKind (pyStrip l))

/-- The flush-discipline condition: scanning the header sequence, no open
track is ever hit by a header that drops it. -/
def goodHeaders : Option TrackKind → List HeaderKind → Bool
  | _, [] => true
  | k, h :: hs =>
    (match k with
     | some TrackKind.audio => keepsAudio h
     | some TrackKind.text => keepsText h
     | Option.none => true) && goodHeaders (nextOpen h) hs

/-- The _parse_key_value step never touches the sealed track lists and never
changes the kind of the open track. -/
theorem parse_key_value_effects (key value : String) (st : ParseState) :
    (parse_key_value key value st).audio = st.audio ∧
    (parse_key_value key value st).subtitles = st.subtitles ∧
    openKind (parse_key_value key value st).current = openKind st.current := by
  unfold parse_key_value
  split
  · exact ⟨rfl, rfl, rfl⟩
  split
  · exact ⟨rfl, rfl, rfl⟩
  split
  · cases hcur : st.current <;> simp [openKind, hcur]
  split
  · cases hcur : st.current <;> simp [openKind, hcur]
  · exact ⟨rfl, rfl, rfl⟩

/-- A non-header line never touches the sealed track lists and never
changes the kind of the open track. -/
theorem parseLine_nonheader_effects {l : String} (st : ParseState)
    (hhk : headerKind (pyStrip l) = Option.none) :
    (parseLine st l).audio = st.audio ∧
    (parseLine st l).subtitles = st.subtitles ∧
    openKind (parseLine st l).current = openKind st.current := by
  have hpe := parseLine_eq st l
  rw [hhk] at hpe
  rw [hpe]
  cases hc : pySplitColon1 (pyStrip l).data with
  | none => exact ⟨rfl, rfl, rfl⟩
  | some kv =>
    cases kv with
    | mk k v => exact parse_key_value_effects _ _ _

/-- Core count invariant of the parse_file loop: under the
flush-discipline condition, each step preserves
"sealed + open = initial + boundaries seen" for both track kinds. -/
theorem parseLoop_counts (lines : List String) :
    ∀ st : ParseState,
      goodHeaders (openKind st.current) (headersOf lines) = true →
      (parseLoop st lines).audio.length
          + openCount (openKind (parseLoop st lines).current) TrackKind.audio
        = st.audio.length + openCount (openKind st.current) TrackKind.audio
          + lines.countP (fun s => headerKind (pyStrip s) == some HeaderKind.audio) ∧
      (parseLoop st lines).subtitles.length
          + openCount (openKind (parseLoop st lines).current) TrackKind.text
        = st.subtitles.length + openCount (openKind st.current) TrackKind.text
          + lines.countP (fun s => headerKind (pyStrip s) == some HeaderKind.text) := by
  induction lines with
  | nil =>
    intro st _
    simp [parseLoop]
  | cons l rest ih =>
    intro st hgood
    have hstep : parseLoop st (l :: rest) = parseLoop (parseLine st l) rest := rfl
    rw [hstep]
    have hpe := parseLine_eq st l
    unfold headersOf at hgood
    cases hhk : headerKind (pyStrip l) with
    | none =>
      simp only [List.filterMap_cons, hhk] at hgood
      obtain ⟨e1, e2, e3⟩ := parseLine_nonheader_effects st hhk
      obtain ⟨iha, iht⟩ := ih (parseLine st l) (by rw [e3]; exact hgood)
      constructor
      · rw [iha, e1, e3]
        simp [List.countP_cons, hhk]
      · rw [iht, e2, e3]
        simp [List.countP_cons, hhk]
    | some hk =>
      simp only [List.filterMap_cons, hhk] at hgood
      rw [hhk] at hpe
      cases hk with
      | general =>
        cases hcur : st.current with
        | none =>
          rw [hcur] at hgood
          simp only [openKind, goodHeaders, nextOpen, Bool.true_and] at hgood
          obtain ⟨iha, iht⟩ := ih (parseLine st l) (by rw [hpe]; exact hgood)
          constructor
          · rw [iha, hpe, hcur]
            simp [openKind, openCount, List.countP_cons, hhk] <;> omega
          · rw [iht, hpe, hcur]
            simp [openKind, openCount, List.countP_cons, hhk] <;> omega
        | audio t =>
          rw [hcur] at hgood
          simp [openKind, goodHeaders, keepsAudio] at hgood
        | text t =>
          rw [hcur] at hgood
          simp [openKind, goodHeaders, keepsText] at hgood
      | video =>
        cases hcur : st.current with
        | none =>
          rw [hcur] at hgood
          simp only [openKind, goodHeaders, nextOpen, Bool.true_and] at hgood
          obtain ⟨iha, iht⟩ := ih (parseLine st l) (by rw [hpe]; exact hgood)
          constructor
          · rw [iha, hpe, hcur]
            simp [openKind, openCount, List.countP_cons, hhk] <;> omega
          · rw [iht, hpe, hcur]
            simp [openKind, openCount, List.countP_cons, hhk] <;> omega
        | audio t =>
          rw [hcur] at hgood
          simp [openKind, goodHeaders, keepsAudio] at hgood
        | text t =>
          rw [hcur] at hgood
          simp [openKind, goodHeaders, keepsText] at hgood
      | audio =>
        cases hcur : st.current with
        | none =>
          rw [hcur] at hgood
          simp only [openKind, goodHeaders, nextOpen, Bool.true_and] at hgood
          obtain ⟨iha, iht⟩ := ih (parseLine st l)
            (by rw [hpe, hcur]; exact hgood)
          constructor
          · rw [iha, hpe, hcur]
            simp [openKind, openCount, List.countP_cons, hhk] <;> omega
          · rw [iht, hpe, hcur]
            simp [openKind, openCount, List.countP_cons, hhk] <;> omega
        | audio t =>
          rw [hcur] at hgood
          simp only [openKind, goodHeaders, keepsAudio, nextOpen, Bool.true_and] at hgood
          obtain ⟨iha, iht⟩ := ih (parseLine st l)
            (by rw [hpe, hcur]; exact hgood)
          constructor
          · rw [iha, hpe, hcur]
            simp [openKind, openCount, List.countP_cons, hhk] <;> omega
          · rw [iht, hpe, hcur]
            simp [openKind, openCount, List.countP_cons, hhk] <;> omega
        | text t =>
          rw [hcur] at hgood
          simp [openKind, goodHeaders, keepsText] at hgood
      | text =>
        cases hcur : st.current with
        | none =>
          rw [hcur] at hgood
          simp only [openKind, goodHeaders, nextOpen, Bool.true_and] at hgood
          obtain ⟨iha, iht⟩ := ih (parseLine st l)
            (by rw [hpe, hcur]; exact hgood)
          constructor
          · rw [iha, hpe, hcur]
            simp [openKind, openCount, List.countP_cons, hhk] <;> omega
          · rw [iht, hpe, hcur]
            simp [openKind, openCount, List.countP_cons, hhk] <;> omega
        | audio t =>
          rw [hcur] at hgood
          simp only [openKind, goodHeaders, keepsAudio, nextOpen, Bool.true_and] at hgood
          obtain ⟨iha, iht⟩ := ih (parseLine st l)
            (by rw [hpe, hcur]; exact hgood)
          constructor
          · rw [iha, hpe, hcur]
            simp [openKind, openCount, List.countP_cons, hhk] <;> omega
          · rw [iht, hpe, hcur]
            simp [openKind, openCount, List.countP_cons, hhk] <;> omega
        | text t =>
          rw [hcur] at hgood
          simp only [openKind, goodHeaders, keepsText, nextOpen, Bool.true_and] at hgood
          obtain ⟨iha, iht⟩ := ih (parseLine st l)
            (by rw [hpe, hcur]; exact hgood)
          constructor
          · rw [iha, hpe, hcur]
            simp [openKind, openCount, List.countP_cons, hhk] <;> omega
          · rw [iht, hpe, hcur]
            simp [openKind, openCount, List.countP_cons, hhk] <;> omega
      | menu =>
        cases hcur : st.current with
        | none =>
          rw [hcur] at hgood
          simp only [openKind, goodHeaders, nextOpen, Bool.true_and] at hgood
          obtain ⟨iha, iht⟩ := ih (parseLine st l)
            (by rw [hpe, hcur]; exact hgood)
          constructor
          · rw [iha, hpe, hcur]
            simp [openKind, openCount, List.countP_cons, hhk] <;> omega
          · rw [iht, hpe, hcur]
            simp [openKind, openCount, List.countP_cons, hhk] <;> omega
        | audio t =>
          rw [hcur] at hgood
          simp [openKind, goodHeaders, keepsAudio] at hgood
        | text t =>
          rw [hcur] at hgood
          simp only [openKind, goodHeaders, keepsText, nextOpen, Bool.true_and] at hgood
          obtain ⟨iha, iht⟩ := ih (parseLine st l)
            (by rw [hpe, hcur]; exact hgood)
          constructor
          · rw [iha, hpe, hcur]
            simp [openKind, openCount, List.countP_cons, hhk] <;> omega
          · rw [iht, hpe, hcur]
            simp [openKind, openCount, List.countP_cons, hhk] <;> omega

theorem headerKind_beq_audio {s : String} (hs : pyStrip s = s) :
    (headerKind (pyStrip s) == some HeaderKind.audio) = pyStartsWith s "Audio" := by
  rw [hs]
  cases hb : pyStartsWith s "Audio"
  · exact beq_eq_false_iff_ne.mpr
      (fun hc => by rw [(headerKind_eq_audio_iff s).mp hc] at hb; cases hb)
  · rw [(headerKind_eq_audio_iff s).mpr hb]
    simp

theorem headerKind_beq_text {s : String} (hs : pyStrip s = s) :
    (headerKind (pyStrip s) == some HeaderKind.text) = pyStartsWith s "Text" := by
  rw [hs]
  cases hb : pyStartsWith s "Text"
  · exact beq_eq_false_iff_ne.mpr
      (fun hc => by rw [(headerKind_eq_text_iff s).mp hc] at hb; cases hb)
  · rw [(headerKind_eq_text_iff s).mpr hb]
    simp

/-- Sealed-track counts of the full parse, under the flush-discipline
condition. -/
theorem parseMediaInfo_counts (text : String)
    (h : goodHeaders Option.none (headersOf (contentLines text)) = true) :
    (parseMediaInfo text).audio.length
        = (contentLines text).countP (fun s => pyStartsWith s "Audio") ∧
    (parseMediaInfo text).subtitles.length
        = (contentLines text).countP (fun s => pyStartsWith s "Text") := by
  obtain ⟨ca, ct⟩ := parseLoop_counts (contentLines text) initState h
  have hbra : (contentLines text).countP
        (fun s => headerKind (pyStrip s) == some HeaderKind.audio)
      = (contentLines text).countP (fun s => pyStartsWith s "Audio") :=
    countP_congr_mem (fun s hsm => headerKind_beq_audio (contentLines_stripped s hsm))
  have hbrt : (contentLines text).countP
        (fun s => headerKind (pyStrip s) == some HeaderKind.text)
      = (contentLines text).countP (fun s => pyStartsWith s "Text") :=
    countP_congr_mem (fun s hsm => headerKind_beq_text (contentLines_stripped s hsm))
  rw [hbra] at ca
  rw [hbrt] at ct
  unfold parseMediaInfo
  cases hcur : (parseLoop initState (contentLines text)).current with
  | none =>
    rw [hcur] at ca ct
    simp only [hcur]
    simp only [openKind, openCount, initState] at ca ct
    constructor
    · simpa using ca
    · simpa using ct
  | audio t =>
    rw [hcur] at ca ct
    simp only [hcur]
    simp only [openKind, openCount, initState] at ca ct
    constructor
    · simp only [List.length_map, List.length_append]
      simpa using ca
    · simpa using ct
  | text t =>
    rw [hcur] at ca ct
    simp only [hcur]
    simp only [openKind, openCount, initState] at ca ct
    constructor
    · simpa using ca
    · simp only [List.length_map, List.length_append]
      simpa using ct

/-- C1 (amended). The original count invariant fails because a `General`,
`Video` or `Menu` header drops (does not seal) an open audio track, and a
`General`, `Video` or `Audio` header drops an open subtitle track. Under
the flush discipline — scanning the headers of the input, no open track is
hit by a header that drops it — the number of sealed AudioTrack records
equals the number of non-blank lines starting with `Audio` and the number
of sealed SubtitleTrack records equals the number of non-blank lines
starting with `Text`; moreover a boundary immediately followed by another
boundary of the same kind still seals an all-default record. -/
theorem c1_track_counts_amended (text : String)
    (h : goodHeaders Option.none (headersOf (contentLines text)) = true) :
    ((parseMediaInfo text).audio.length
        = (contentLines text).countP (fun s => pyStartsWith s "Audio")
      ∧ (parseMediaInfo text).subtitles.length
        = (contentLines text).countP (fun s => pyStartsWith s "Text"))
      ∧ (parseMediaInfo "Audio\nAudio").audio = [{}, {}]
      ∧ (parseMediaInfo "Text\nText").subtitles = [{}, {}] :=
  ⟨parseMediaInfo_counts text h, by decide, by decide⟩

/-- Witness for C1 (amended) at a concrete well-ordered input. -/
theorem c1_track_counts_witness :
    (goodHeaders Option.none
        (headersOf (contentLines "General\nAudio\nLanguage : en\nText")) = true) ∧
    (((parseMediaInfo "General\nAudio\nLanguage : en\nText").audio.length
        = (contentLines "General\nAudio\nLanguage : en\nText").countP
            (fun s => pyStartsWith s "Audio")
      ∧ (parseMediaInfo "General\nAudio\nLanguage : en\nText").subtitles.length
        = (contentLines "General\nAudio\nLanguage : en\nText").countP
            (fun s => pyStartsWith s "Text"))
      ∧ (parseMediaInfo "Audio\nAudio").audio = [{}, {}]
      ∧ (parseMediaInfo "Text\nText").subtitles = [{}, {}]) :=
  ⟨by decide, c1_track_counts_amended "General\nAudio\nLanguage : en\nText" (by decide)⟩

/-- C1 counterexample to the claim as stated: in `"Text\nAudio"` the
`Audio` boundary drops the open subtitle track, so the subtitles list is
empty although one non-blank line starts with `Text`. -/
theorem c1_track_counts_counterexample :
    (parseMediaInfo "Text\nAudio").subtitles.length = 0 ∧
    (contentLines "Text\nAudio").countP (fun s => pyStartsWith s "Text") = 1 :=
  ⟨by decide, by decide⟩

/-- C2: parse_file propagates a failure exactly when the source text
cannot be obtained; once the text is read, parsing is a total function of
the text (no content makes it fail) and a structured result is returned. -/
theorem c2_parse_file_fails_iff_read_fails (source : Except String String) :
    (parse_file source).isOk = source.isOk ∧
    parse_file source = source.map parseMediaInfo := by
  cases source <;> exact ⟨rfl, rfl⟩

/-- C6: the parse is deterministic — two calls on identical text yield
identical records. -/
theorem c6_deterministic (t1 t2 : String) (h : t1 = t2) :
    parseMediaInfo t1 = parseMediaInfo t2 := by
  rw [h]

/-- Witness for C6 at a concrete input. -/
theorem c6_deterministic_witness :
    parseMediaInfo "Audio\nLanguage : ja" = parseMediaInfo "Audio\nLanguage : ja" :=
  c6_deterministic "Audio\nLanguage : ja" "Audio\nLanguage : ja" rfl

/-- With no recognized header line the loop never leaves its initial
state: no section is ever active, so every key/value line is ignored. -/
theorem parseLoop_no_headers (lines : List String)
    (h : ∀ l ∈ lines, headerKind (pyStrip l) = Option.none) :
    parseLoop initState lines = initState := by
  induction lines with
  | nil => rfl
  | cons l rest ih =>
    have hstep : parseLoop initState (l :: rest) = parseLoop (parseLine initState l) rest := rfl
    rw [hstep]
    have h1 : parseLine initState l = initState := by
      have hpe := parseLine_eq initState l
      rw [h l (by simp)] at hpe
      rw [hpe]
      cases hc : pySplitColon1 (pyStrip l).data with
      | none => rfl
      | some kv =>
        cases kv with
        | mk k v => rfl
    rw [h1]
    exact ih (fun x hx => h x (by simp [hx]))

/-- C7: empty input, and more generally input none of whose non-blank
lines is a recognized header, parses to the all-default aggregate —
default general and video parts and empty track lists — rather than
failing. -/
theorem c7_degenerate_input_defaults :
    parseMediaInfo "" = {} ∧
    ∀ text : String,
      (∀ l ∈ contentLines text, headerKind l = Option.none) →
      parseMediaInfo text = {} := by
  constructor
  · decide
  · intro text h
    have h' : ∀ l ∈ contentLines text, headerKind (pyStrip l) = Option.none := by
      intro l hl
      rw [contentLines_stripped l hl]
      exact h l hl
    unfold parseMediaInfo
    rw [parseLoop_no_headers _ h']
    rfl

/-- Witness for C7 at a concrete unrecognized input. -/
theorem c7_degenerate_input_witness :
    (∀ l ∈ contentLines "hello\nfoo : bar", headerKind l = Option.none) ∧
    parseMediaInfo "hello\nfoo : bar" = {} :=
  ⟨by decide, c7_degenerate_input_defaults.2 "hello\nfoo : bar" (by decide)⟩

/-- C4 (amended): a `General` header line and a `Video`-prefixed header
line seal no track — the audio and subtitles lists are untouched, only
the section is set and the current-track handle cleared — but a `Menu`
header line seals (appends) a still-open subtitle track before clearing
the handle; it never seals an audio track. -/
theorem c4_section_header_effects :
    (∀ (st : ParseState) (l : String), pyStrip l = "General" →
      parseLine st l
        = { st with current_section := some "general", current := CurrentTrack.none }) ∧
    (∀ (st : ParseState) (l : String), pyStartsWith (pyStrip l) "Video" = true →
      parseLine st l
        = { st with current_section := some "video", current := CurrentTrack.none }) ∧
    (∀ (st : ParseState) (l : String), pyStrip l = "Menu" →
      parseLine st l
        = { st with
            subtitles := st.subtitles ++
              (match st.current with
               | CurrentTrack.text t => [t]
               | _ => []),
            current_section := some "menu", current := CurrentTrack.none }) := by
  refine ⟨?_, ?_, ?_⟩
  · intro st l h
    rw [parseLine_eq]
    rw [show headerKind (pyStrip l) = some HeaderKind.general from by rw [h]; rfl]
  · intro st l h
    have h0 : pyStrip l ≠ "" := by
      intro he
      rw [he] at h
      exact absurd h (by decide)
    have h1 : pyStrip l ≠ "General" := by
      intro he
      rw [he] at h
      exact absurd h (by decide)
    rw [parseLine_eq]
    rw [show headerKind (pyStrip l) = some HeaderKind.video from by
      unfold headerKind
      rw [if_neg h0, if_neg h1, if_pos h]]
  · intro st l h
    rw [parseLine_eq]
    rw [show headerKind (pyStrip l) = some HeaderKind.menu from by rw [h]; rfl]
    cases hcur : st.current <;> simp [hcur]

/-- Witness for C4 (amended) at concrete lines and states. -/
theorem c4_section_header_witness :
    parseLine initState "General"
        = { initState with current_section := some "general", current := CurrentTrack.none } ∧
    parseLine initState "Video #1"
        = { initState with current_section := some "video", current := CurrentTrack.none } ∧
    parseLine (parseLine initState "Text") "Menu"
        = { parseLine initState "Text" with
            subtitles := (parseLine initState "Text").subtitles ++
              (match (parseLine initState "Text").current with
               | CurrentTrack.text t => [t]
               | _ => []),
            current_section := some "menu", current := CurrentTrack.none } :=
  ⟨c4_section_header_effects.1 initState "General" (by decide),
   c4_section_header_effects.2.1 initState "Video #1" (by decide),
   c4_section_header_effects.2.2 (parseLine initState "Text") "Menu" (by decide)⟩

/-- C4 counterexample to the claim as stated: a `Menu` header processed
with an open subtitle track does change the subtitles list (the open
track is sealed and appended there). -/
theorem c4_menu_flushes_counterexample :
    (parseLine (parseLine initState "Text") "Menu").subtitles.length = 1 ∧
    (parseLine initState "Text").subtitles.length = 0 :=
  ⟨by decide, by decide⟩

/-- C8 (amended): for a `Width` or `Height` value in the Video section the
stored field is the value with every literal `pixels` substring and every
space character (U+0020) removed and then stripped of leading/trailing
whitespace — other interior whitespace such as a tab survives; in
particular `"1 920 pixels"` is stored as `"1920"`. -/
theorem c8_width_height_normalization :
    (∀ (st : ParseState) (v : String), st.current_section = some "video" →
      (parse_key_value "Width" v st).video.width = some (stripPixels v) ∧
      (parse_key_value "Height" v st).video.height = some (stripPixels v)) ∧
    (parseMediaInfo "Video\nWidth : 1 920 pixels\nHeight : 1 080 pixels").video.width
        = some "1920" ∧
    (parseMediaInfo "Video\nWidth : 1 920 pixels\nHeight : 1 080 pixels").video.height
        = some "1080" := by
  refine ⟨?_, by decide, by decide⟩
  intro st v h
  constructor
  · unfold parse_key_value
    rw [h]
    simp [show pyLower "Width" = "width" from rfl, videoSet]
  · unfold parse_key_value
    rw [h]
    simp [show pyLower "Height" = "height" from rfl, videoSet]

/-- Witness for C8 (amended) at the concrete value of the spec example. -/
theorem c8_width_height_witness :
    (parse_key_value "Width" "1 920 pixels"
        { initState with current_section := some "video" }).video.width
      = some (stripPixels "1 920 pixels") ∧
    (parse_key_value "Height" "1 920 pixels"
        { initState with current_section := some "video" }).video.height
      = some (stripPixels "1 920 pixels") :=
  c8_width_height_normalization.1 { initState with current_section := some "video" }
    "1 920 pixels" rfl

/-- C8 counterexample to the claim as stated: only space characters are
removed, not all whitespace — a tab inside the value survives, so the
stored width is not the value with all whitespace stripped. -/
theorem c8_tab_counterexample :
    (parseMediaInfo "Video\nWidth : 1\t920 pixels").video.width = some "1\t920" ∧
    "1\t920" ≠ "1920" :=
  ⟨by decide, by decide⟩

/-! ## Channel-layout inferencer (C3) -/

theorem contains_mem {α : Type} [BEq α] [LawfulBEq α] {l : List α} {t : α}
    (h : l.contains t = true) : t ∈ l :=
  List.elem_iff.mp h

/-- The three channel tables are pairwise disjoint, so counting a token in
the first matching table is counting it in its unique table. -/
theorem main_channel_disjoint :
    ∀ t ∈ main_channel_names,
      lfe_channel_names.contains t = false ∧ height_channel_names.contains t = false := by
  have hall : main_channel_names.all
      (fun t => !(lfe_channel_names.contains t) && !(height_channel_names.contains t)) = true := by
    decide
  intro t ht
  have h := List.all_eq_true.mp hall t ht
  simp only [Bool.and_eq_true, Bool.not_eq_true'] at h
  exact h

theorem lfe_channel_disjoint :
    ∀ t ∈ lfe_channel_names, height_channel_names.contains t = false := by
  have hall : lfe_channel_names.all (fun t => !(height_channel_names.contains t)) = true := by
    decide
  intro t ht
  have h := List.all_eq_true.mp hall t ht
  simp only [Bool.not_eq_true'] at h
  exact h

/-- The classification fold counts each token in its (unique) table and
skips tokens that are in none. -/
theorem channelCounts_eq_countP (tokens : List String) :
    ∀ acc : Nat × Nat × Nat,
      tokens.foldl
        (fun acc channel =>
          if main_channel_names.contains channel then (acc.1 + 1, acc.2.1, acc.2.2)
          else if lfe_channel_names.contains channel then (acc.1, acc.2.1 + 1, acc.2.2)
          else if height_channel_names.contains channel then (acc.1, acc.2.1, acc.2.2 + 1)
          else acc) acc
      = (acc.1 + tokens.countP (fun t => main_channel_names.contains t),
         acc.2.1 + tokens.countP (fun t => lfe_channel_names.contains t),
         acc.2.2 + tokens.countP (fun t => height_channel_names.contains t)) := by
  induction tokens with
  | nil =>
    intro acc
    simp
  | cons t rest ih =>
    intro acc
    rw [List.foldl_cons]
    by_cases h1 : main_channel_names.contains t = true
    · obtain ⟨hd1, hd2⟩ := main_channel_disjoint t (contains_mem h1)
      rw [if_pos h1, ih]
      simp only [List.countP_cons, Prod.mk.injEq]
      rw [if_pos h1, if_neg (by rw [hd1]; decide), if_neg (by rw [hd2]; decide)]
      omega
    · rw [if_neg h1]
      by_cases h2 : lfe_channel_names.contains t = true
      · have hd3 := lfe_channel_disjoint t (contains_mem h2)
        rw [if_pos h2, ih]
        simp only [List.countP_cons, Prod.mk.injEq]
        rw [if_neg h1, if_pos h2, if_neg (by rw [hd3]; decide)]
        omega
      · rw [if_neg h2]
        by_cases h3 : height_channel_names.contains t = true
        · rw [if_pos h3, ih]
          simp only [List.countP_cons, Prod.mk.injEq]
          rw [if_neg h1, if_neg h2, if_pos h3]
          omega
        · rw [if_neg h3, ih]
          simp only [List.countP_cons, Prod.mk.injEq]
          rw [if_neg h1, if_neg h2, if_neg h3]
          omega

/-- C3: for every whitespace-separated token list given as a
`channel layout` value, the inferencer counts the tokens found in the
main-channel, LFE and height tables, silently skips tokens in none of the
three, renders `main.lfe` when the height count is zero and
`main.lfe.height` otherwise, and the parser stores this label in the open
audio track; in particular the four example values render as claimed. -/
theorem c3_channel_layout_label :
    (∀ value : String,
      channelLayoutLabel value =
        (let tokens := pySplitWs value
         let main := tokens.countP (fun t => main_channel_names.contains t)
         let lfe := tokens.countP (fun t => lfe_channel_names.contains t)
         let height := tokens.countP (fun t => height_channel_names.contains t)
         if height = 0 then toString main ++ "." ++ toString lfe
         else toString main ++ "." ++ toString lfe ++ "." ++ toString height)) ∧
    (∀ (v : String) (t : AudioTrack),
      (audioSet "channel layout" v t).channels = channelLayoutLabel v) ∧
    channelLayoutLabel "L R C LFE Ls Rs" = "5.1" ∧
    channelLayoutLabel "L R C LFE Ls Rs Tfl Tfr" = "5.1.2" ∧
    channelLayoutLabel "L R" = "2.0" ∧
    channelLayoutLabel "" = "0.0" ∧
    channelLayoutLabel "foo bar" = "0.0" := by
  refine ⟨?_, fun v t => rfl, by decide, by decide, by decide, by decide, by decide⟩
  intro value
  unfold channelLayoutLabel channelCounts
  rw [channelCounts_eq_countP]
  simp only [Nat.zero_add]
  by_cases hz : (pySplitWs value).countP (fun t => height_channel_names.contains t) = 0
  · rw [hz]
    simp [String.append_empty]
  · rw [if_neg hz, if_pos (Nat.pos_of_ne_zero hz)]
    simp [String.append_assoc]

/-! ## Flag post-pass (C10) -/

theorem audioSet_flag (key value : String) (t : AudioTrack) :
    (audioSet key value t).flag = t.flag := by
  unfold audioSet
  repeat' split
  all_goals rfl

theorem subtitleSet_flag (key value : String) (t : SubtitleTrack) :
    (subtitleSet key value t).flag = t.flag := by
  unfold subtitleSet
  repeat' split
  all_goals rfl

/-- The open track, if any, still has its default empty flag. -/
def currentFlagClear : CurrentTrack → Prop
  | CurrentTrack.none => True
  | CurrentTrack.audio t => t.flag = ""
  | CurrentTrack.text t => t.flag = ""

/-- No track seen by the loop ever has a non-default flag: the loop never
writes the `flag` field, which is only set by the final post-pass. -/
def FlagsClear (st : ParseState) : Prop :=
  (∀ t ∈ st.audio, t.flag = "") ∧ (∀ t ∈ st.subtitles, t.flag = "") ∧
    currentFlagClear st.current

theorem parse_key_value_flagsClear (key value : String) (st : ParseState)
    (h : FlagsClear st) : FlagsClear (parse_key_value key value st) := by
  obtain ⟨ha, hs, hc⟩ := h
  unfold parse_key_value
  split
  · exact ⟨ha, hs, hc⟩
  split
  · exact ⟨ha, hs, hc⟩
  split
  · cases hcur : st.current with
    | audio t =>
      rw [hcur] at hc
      refine ⟨ha, hs, ?_⟩
      show (audioSet (pyLower key) value t).flag = ""
      rw [audioSet_flag]
      exact hc
    | none => exact ⟨ha, hs, by rw [hcur]; trivial⟩
    | text t => exact ⟨ha, hs, by rw [hcur] at hc ⊢; exact hc⟩
  split
  · cases hcur : st.current with
    | text t =>
      rw [hcur] at hc
      refine ⟨ha, hs, ?_⟩
      show (subtitleSet (pyLower key) value t).flag = ""
      rw [subtitleSet_flag]
      exact hc
    | none => exact ⟨ha, hs, by rw [hcur]; trivial⟩
    | audio t => exact ⟨ha, hs, by rw [hcur] at hc ⊢; exact hc⟩
  · exact ⟨ha, hs, hc⟩

theorem parseLine_flagsClear (st : ParseState) (l : String)
    (h : FlagsClear st) : FlagsClear (parseLine st l) := by
  obtain ⟨ha, hs, hc⟩ := h
  rw [parseLine_eq]
  cases hhk : headerKind (pyStrip l) with
  | none =>
    cases hcol : pySplitColon1 (pyStrip l).data with
    | none => exact ⟨ha, hs, hc⟩
    | some kv =>
      cases kv with
      | mk k v => exact parse_key_value_flagsClear _ _ _ ⟨ha, hs, hc⟩
  | some hk =>
    cases hk with
    | general => exact ⟨ha, hs, trivial⟩
    | video => exact ⟨ha, hs, trivial⟩
    | audio =>
      cases hcur : st.current with
      | none => exact ⟨ha, hs, rfl⟩
      | audio t =>
        rw [hcur] at hc
        refine ⟨?_, hs, rfl⟩
        intro x hx
        rw [List.mem_append] at hx
        rcases hx with hx | hx
        · exact ha x hx
        · rw [List.mem_singleton] at hx
          rw [hx]
          exact hc
      | text t => exact ⟨ha, hs, rfl⟩
    | text =>
      cases hcur : st.current with
      | none => exact ⟨ha, hs, rfl⟩
      | audio t =>
        rw [hcur] at hc
        refine ⟨?_, hs, rfl⟩
        intro x hx
        rw [List.mem_append] at hx
        rcases hx with hx | hx
        · exact ha x hx
        · rw [List.mem_singleton] at hx
          rw [hx]
          exact hc
      | text t =>
        rw [hcur] at hc
        refine ⟨ha, ?_, rfl⟩
        intro x hx
        rw [List.mem_append] at hx
        rcases hx with hx | hx
        · exact hs x hx
        · rw [List.mem_singleton] at hx
          rw [hx]
          exact hc
    | menu =>
      cases hcur : st.current with
      | none => exact ⟨ha, hs, trivial⟩
      | audio t => exact ⟨ha, hs, trivial⟩
      | text t =>
        rw [hcur] at hc
        refine ⟨ha, ?_, trivial⟩
        intro x hx
        rw [List.mem_append] at hx
        rcases hx with hx | hx
        · exact hs x hx
        · rw [List.mem_singleton] at hx
          rw [hx]
          exact hc

theorem parseLoop_flagsClear (lines : List String) :
    ∀ st : ParseState, FlagsClear st → FlagsClear (parseLoop st lines) := by
  induction lines with
  | nil => exact fun st h => h
  | cons l rest ih =>
    intro st h
    exact ih (parseLine st l) (parseLine_flagsClear st l h)

/-- C10: in every returned record, a sealed track with a non-empty
language has its flag equal to get_language_flag of that language, and a
track with an empty language keeps the default empty flag (the post-pass
skips it). -/
theorem c10_flag_resolution (text : String) :
    (∀ tr ∈ (parseMediaInfo text).audio,
      tr.flag = if tr.language = "" then "" else get_language_flag tr.language) ∧
    (∀ tr ∈ (parseMediaInfo text).subtitles,
      tr.flag = if tr.language = "" then "" else get_language_flag tr.language) := by
  have hclear : FlagsClear (parseLoop initState (contentLines text)) :=
    parseLoop_flagsClear (contentLines text) initState ⟨by simp [initState], by simp [initState], trivial⟩
  obtain ⟨ha, hs, hc⟩ := hclear
  simp only [parseMediaInfo]
  cases hcur : (parseLoop initState (contentLines text)).current with
  | none =>
    simp only [hcur]
    constructor
    · intro tr htr
      simp only [List.mem_map] at htr
      obtain ⟨t0, ht0, rfl⟩ := htr
      unfold flagAudio
      by_cases hlang : t0.language = ""
      · rw [if_neg (by simp [hlang]), hlang, if_pos rfl]
        exact ha t0 ht0
      · rw [if_pos (by simp [hlang])]
        simp [hlang]
    · intro tr htr
      simp only [List.mem_map] at htr
      obtain ⟨t0, ht0, rfl⟩ := htr
      unfold flagSubtitle
      by_cases hlang : t0.language = ""
      · rw [if_neg (by simp [hlang]), hlang, if_pos rfl]
        exact hs t0 ht0
      · rw [if_pos (by simp [hlang])]
        simp [hlang]
  | audio t =>
    rw [hcur] at hc
    simp only [hcur]
    constructor
    · intro tr htr
      simp only [List.mem_map] at htr
      obtain ⟨t0, ht0, rfl⟩ := htr
      rw [List.mem_append] at ht0
      have ht0f : t0.flag = "" := by
        rcases ht0 with h0 | h0
        · exact ha t0 h0
        · rw [List.mem_singleton] at h0
          rw [h0]
          exact hc
      unfold flagAudio
      by_cases hlang : t0.language = ""
      · rw [if_neg (by simp [hlang]), hlang, if_pos rfl]
        exact ht0f
      · rw [if_pos (by simp [hlang])]
        simp [hlang]
    · intro tr htr
      simp only [List.mem_map] at htr
      obtain ⟨t0, ht0, rfl⟩ := htr
      unfold flagSubtitle
      by_cases hlang : t0.language = ""
      · rw [if_neg (by simp [hlang]), hlang, if_pos rfl]
        exact hs t0 ht0
      · rw [if_pos (by simp [hlang])]
        simp [hlang]
  | text t =>
    rw [hcur] at hc
    simp only [hcur]
    constructor
    · intro tr htr
      simp only [List.mem_map] at htr
      obtain ⟨t0, ht0, rfl⟩ := htr
      unfold flagAudio
      by_cases hlang : t0.language = ""
      · rw [if_neg (by simp [hlang]), hlang, if_pos rfl]
        exact ha t0 ht0
      · rw [if_pos (by simp [hlang])]
        simp [hlang]
    · intro tr htr
      simp only [List.mem_map] at htr
      obtain ⟨t0, ht0, rfl⟩ := htr
      rw [List.mem_append] at ht0
      have ht0f : t0.flag = "" := by
        rcases ht0 with h0 | h0
        · exact hs t0 h0
        · rw [List.mem_singleton] at h0
          rw [h0]
          exact hc
      unfold flagSubtitle
      by_cases hlang : t0.language = ""
      · rw [if_neg (by simp [hlang]), hlang, if_pos rfl]
        exact ht0f
      · rw [if_pos (by simp [hlang])]
        simp [hlang]

/-- Witness for C10 at a concrete input with one audio track whose
language is set. -/
theorem c10_flag_resolution_witness :
    ((parseMediaInfo "Audio\nLanguage : ja").audio.headD {}).flag
      = (if ((parseMediaInfo "Audio\nLanguage : ja").audio.headD {}).language = ""
         then ""
         else get_language_flag
           ((parseMediaInfo "Audio\nLanguage : ja").audio.headD {}).language) :=
  (c10_flag_resolution "Audio\nLanguage : ja").1
    ((parseMediaInfo "Audio\nLanguage : ja").audio.headD {}) (by decide)

/-! ## Language-flag resolver (C5) -/

theorem takeWhile_ne_eq_take (c : Char) :
    ∀ l : List Char, l.takeWhile (· != c) = l.take (l.indexOf c) := by
  intro l
  induction l with
  | nil => rfl
  | cons a l ih =>
    by_cases hac : a = c
    · subst hac
      rw [List.indexOf_cons_self, List.take_zero, List.takeWhile_cons]
      simp
    · rw [List.indexOf_cons_ne _ hac, List.takeWhile_cons, if_pos (by simp [hac]),
        List.take_succ_cons, ih]

theorem dropWhile_ne_eq_drop (c : Char) :
    ∀ l : List Char, l.dropWhile (· != c) = l.drop (l.indexOf c) := by
  intro l
  induction l with
  | nil => rfl
  | cons a l ih =>
    by_cases hac : a = c
    · subst hac
      rw [List.indexOf_cons_self, List.drop_zero, List.dropWhile_cons]
      simp
    · rw [List.indexOf_cons_ne _ hac, List.dropWhile_cons, if_pos (by simp [hac]),
        List.drop_succ_cons, ih]

theorem indexOf_drop (c : Char) :
    ∀ (n : Nat) (l : List Char), n ≤ l.indexOf c →
      (l.drop n).indexOf c = l.indexOf c - n := by
  intro n
  induction n with
  | zero =>
    intro l _
    simp
  | succ n ih =>
    intro l h
    cases l with
    | nil => simp
    | cons a l' =>
      have hane : a ≠ c := by
        intro he
        subst he
        rw [List.indexOf_cons_self] at h
        omega
      rw [List.indexOf_cons_ne _ hane] at h ⊢
      rw [List.drop_succ_cons]
      rw [ih l' (by omega)]
      omega

/-- Modelled from the claim wording: the substring of a string strictly
between the first `(` and the first `)` after it. -/
def specParenCode (code : String) : String :=
  String.mk (((code.data.dropWhile (· != '(')).drop 1).takeWhile (· != ')'))

/-- The resolver as the amended claim describes it: trim and upper-case;
when both parentheses occur, look up the trimmed substring strictly
between the first `(` and the first `)` — which is empty (resolving to "")
whenever the first `)` precedes the first `(` — and otherwise look up the
whole trimmed upper-cased string. -/
def amendedLanguageFlag (lang_code : String) : String :=
  if lang_code = "" then ""
  else
    let code := pyUpper (pyStrip lang_code)
    if pyContains code '(' && pyContains code ')' then
      if code.data.indexOf '(' < code.data.indexOf ')' then
        lookupFlag (pyStrip (specParenCode code))
      else ""
    else lookupFlag code

theorem get_language_flag_eq (s : String) (hs : s ≠ "") :
    get_language_flag s =
      lookupFlag
        (if pyContains (pyUpper (pyStrip s)) '(' && pyContains (pyUpper (pyStrip s)) ')' then
          pyStrip (String.mk
            (((pyUpper (pyStrip s)).data.take ((pyUpper (pyStrip s)).data.indexOf ')')).drop
              ((pyUpper (pyStrip s)).data.indexOf '(' + 1)))
        else pyUpper (pyStrip s)) := by
  unfold get_language_flag
  rw [if_neg hs]

theorem amendedLanguageFlag_eq (s : String) (hs : s ≠ "") :
    amendedLanguageFlag s =
      (if pyContains (pyUpper (pyStrip s)) '(' && pyContains (pyUpper (pyStrip s)) ')' then
        (if (pyUpper (pyStrip s)).data.indexOf '(' < (pyUpper (pyStrip s)).data.indexOf ')' then
          lookupFlag (pyStrip (specParenCode (pyUpper (pyStrip s))))
         else "")
       else lookupFlag (pyUpper (pyStrip s))) := by
  unfold amendedLanguageFlag
  rw [if_neg hs]

/-- C5 (amended): get_language_flag equals the resolver that extracts the
substring between the first `(` and the first `)` of the whole normalized
string — empty whenever the first `)` precedes the first `(` — and the
fixed table resolves the claimed codes, with unknown or empty codes giving
the empty string. -/
theorem c5_language_flag_amended :
    (∀ s : String, get_language_flag s = amendedLanguageFlag s) ∧
    (get_language_flag "English (EN)" = "🇺🇸" ∧
     get_language_flag "ja" = "🇯🇵" ∧
     get_language_flag "xx" = "" ∧
     get_language_flag "" = "" ∧
     lookupFlag "JP" = "🇯🇵" ∧ lookupFlag "JA" = "🇯🇵" ∧ lookupFlag "EN" = "🇺🇸" ∧
     lookupFlag "US" = "🇺🇸" ∧ lookupFlag "GB" = "🇬🇧" ∧ lookupFlag "FR" = "🇫🇷" ∧
     lookupFlag "ES" = "🇪🇸" ∧ lookupFlag "DE" = "🇩🇪" ∧ lookupFlag "IT" = "🇮🇹" ∧
     lookupFlag "CN" = "🇨🇳" ∧ lookupFlag "ZH" = "🇨🇳" ∧ lookupFlag "KO" = "🇰🇷" ∧
     lookupFlag "KR" = "🇰🇷" ∧ lookupFlag "RU" = "🇷🇺") := by
  refine ⟨?_, by decide⟩
  intro s
  by_cases hs : s = ""
  · rw [hs]
    rfl
  rw [get_language_flag_eq s hs, amendedLanguageFlag_eq s hs]
  by_cases hb : (pyContains (pyUpper (pyStrip s)) '(' && pyContains (pyUpper (pyStrip s)) ')')
      = true
  · rw [if_pos hb, if_pos hb]
    have hb' := hb
    rw [Bool.and_eq_true] at hb'
    obtain ⟨hb1, hb2⟩ := hb'
    have hb1' : (pyUpper (pyStrip s)).data.contains '(' = true := hb1
    have hb2' : (pyUpper (pyStrip s)).data.contains ')' = true := hb2
    set l := (pyUpper (pyStrip s)).data with hl
    have hi : l.indexOf '(' < l.length := List.indexOf_lt_length.mpr (contains_mem hb1')
    have hj : l.indexOf ')' < l.length := List.indexOf_lt_length.mpr (contains_mem hb2')
    have hij : l.indexOf '(' ≠ l.indexOf ')' := by
      intro he
      have h1 := List.getElem_indexOf hi
      have h2 := List.getElem_indexOf hj
      simp only [he] at h1
      rw [h1] at h2
      exact absurd h2 (by decide)
    by_cases hlt : l.indexOf '(' < l.indexOf ')'
    · rw [if_pos hlt]
      congr 2
      unfold specParenCode
      rw [← hl]
      rw [dropWhile_ne_eq_drop, List.drop_drop]
      rw [takeWhile_ne_eq_take, indexOf_drop ')' (l.indexOf '(' + 1) l (by omega)]
      rw [List.take_drop, Nat.add_sub_cancel' (by omega : l.indexOf '(' + 1 ≤ l.indexOf ')')]
    · have hgt : l.indexOf ')' < l.indexOf '(' := by omega
      rw [if_neg hlt]
      have hnil : (l.take (l.indexOf ')')).drop (l.indexOf '(' + 1) = [] := by
        rw [List.drop_eq_nil_iff]
        have := List.length_take (l.indexOf ')') l
        have := Nat.min_le_left (l.indexOf ')') l.length
        omega
      rw [hnil]
      rfl
  · rw [if_neg hb, if_neg hb]

/-- C5 counterexample to the claim as stated: the code slices between the
first `(` and the first `)` of the whole string, not the first `)` after
the `(`. On `") (EN)"` the claim's extraction rule yields `"EN"` (US
glyph), while get_language_flag returns the empty string. -/
theorem c5_language_flag_counterexample :
    specParenCode (pyUpper (pyStrip ") (EN)")) = "EN" ∧
    lookupFlag "EN" = "🇺🇸" ∧
    get_language_flag ") (EN)" = "" :=
  ⟨by decide, by decide, by decide⟩

/-! ## Character facts for the upper-casing step (C9) -/

theorem toUpper_eq_self_of {c : Char} (h : ¬(97 ≤ c.toNat ∧ c.toNat ≤ 122)) :
    Char.toUpper c = c := by
  unfold Char.toUpper
  rw [if_neg (fun hcon => h ⟨hcon.1, hcon.2⟩)]

theorem toUpper_paren (c : Char) :
    (Char.toUpper c = '(' → c = '(') ∧ (Char.toUpper c = ')' → c = ')') := by
  by_cases h : 97 ≤ c.toNat ∧ c.toNat ≤ 122
  · obtain ⟨h1, h2⟩ := h
    rw [← Char.ofNat_toNat c]
    generalize c.toNat = n at h1 h2 ⊢
    interval_cases n <;> decide
  · rw [toUpper_eq_self_of h]
    exact ⟨id, id⟩

theorem isWhitespace_toUpper (c : Char) :
    (Char.toUpper c).isWhitespace = c.isWhitespace := by
  by_cases h : 97 ≤ c.toNat ∧ c.toNat ≤ 122
  · obtain ⟨h1, h2⟩ := h
    rw [← Char.ofNat_toNat c]
    generalize c.toNat = n at h1 h2 ⊢
    interval_cases n <;> decide
  · rw [toUpper_eq_self_of h]

/-- When the last character is not whitespace, stripping is left-stripping. -/
theorem stripChars_eq_dropWhile {l : List Char} {c : Char} (hl : l.getLast? = some c)
    (hc : c.isWhitespace = false) :
    stripChars l = l.dropWhile Char.isWhitespace := by
  have hhead : ∀ x, (l.dropWhile Char.isWhitespace).reverse.head? = some x →
      Char.isWhitespace x = false := by
    intro x hx
    rw [List.head?_reverse] at hx
    by_cases hA : l.dropWhile Char.isWhitespace = []
    · rw [hA] at hx
      simp at hx
    · rw [dropWhile_getLast? _ _ hA, hl] at hx
      injection hx with hx
      rw [← hx]
      exact hc
  show ((l.dropWhile Char.isWhitespace).reverse.dropWhile Char.isWhitespace).reverse
      = l.dropWhile Char.isWhitespace
  rw [dropWhile_eq_self_of_head? _ _ hhead, List.reverse_reverse]

theorem mem_stripChars {l : List Char} {x : Char} (h : x ∈ stripChars l) : x ∈ l := by
  unfold stripChars at h
  rw [List.mem_reverse] at h
  have h2 := (List.dropWhile_sublist (l := (l.dropWhile Char.isWhitespace).reverse)
    (p := Char.isWhitespace)).subset h
  rw [List.mem_reverse] at h2
  exact (List.dropWhile_sublist (l := l) (p := Char.isWhitespace)).subset h2

/-- Upper-casing commutes with stripping, because upper-casing preserves
whitespace-ness. -/
theorem stripChars_map_toUpper (l : List Char) :
    stripChars (l.map Char.toUpper) = (stripChars l).map Char.toUpper := by
  have hpf : (Char.isWhitespace ∘ Char.toUpper) = Char.isWhitespace :=
    funext isWhitespace_toUpper
  unfold stripChars
  rw [List.dropWhile_map, hpf, ← List.map_reverse, List.dropWhile_map, hpf, List.map_reverse]

theorem indexOf_append_cons {c : Char} :
    ∀ (A B : List Char), c ∉ A → (A ++ c :: B).indexOf c = A.length := by
  intro A
  induction A with
  | nil =>
    intro B _
    exact List.indexOf_cons_self c B
  | cons a A' ih =>
    intro B h
    have hac : a ≠ c := by
      intro he
      exact h (he ▸ List.mem_cons_self a A')
    rw [List.cons_append, List.indexOf_cons_ne _ hac,
      ih B (fun hm => h (List.mem_cons_of_mem a hm))]
    rfl

/-- The Python slice between the first `(` and the first `)` of
`P ++ "(" ++ CU ++ ")"` is exactly `CU` when `P` has no parentheses and
`CU` no closing parenthesis. -/
theorem slice_between {P CU : List Char} (hP1 : '(' ∉ P) (hP2 : ')' ∉ P)
    (hCU : ')' ∉ CU) :
    ((P ++ '(' :: (CU ++ [')'])).take ((P ++ '(' :: (CU ++ [')'])).indexOf ')')).drop
        ((P ++ '(' :: (CU ++ [')'])).indexOf '(' + 1) = CU := by
  have hi : (P ++ '(' :: (CU ++ [')'])).indexOf '(' = P.length :=
    indexOf_append_cons P _ hP1
  have hassoc : P ++ '(' :: (CU ++ [')']) = (P ++ '(' :: CU) ++ ')' :: [] := by
    simp
  have hnotmem : ')' ∉ P ++ '(' :: CU := by
    intro hm
    rw [List.mem_append, List.mem_cons] at hm
    rcases hm with hm | hm | hm
    · exact hP2 hm
    · exact absurd hm (by decide)
    · exact hCU hm
  have hj : (P ++ '(' :: (CU ++ [')'])).indexOf ')' = (P ++ '(' :: CU).length := by
    rw [hassoc]
    exact indexOf_append_cons _ _ hnotmem
  rw [hi, hj, hassoc, List.take_left]
  have hsplit : P ++ '(' :: CU = (P ++ ['(']) ++ CU := by simp
  rw [hsplit, List.drop_left' (by simp)]

theorem contains_eq_false_of_not_mem {α : Type} [BEq α] [LawfulBEq α] {l : List α} {t : α}
    (h : t ∉ l) : l.contains t = false := by
  cases hc : l.contains t with
  | false => rfl
  | true => exact absurd (contains_mem hc) h

theorem map_toUpper_no_paren {L : List Char}
    (h : ∀ ch ∈ L, ch ≠ '(' ∧ ch ≠ ')') :
    '(' ∉ L.map Char.toUpper ∧ ')' ∉ L.map Char.toUpper := by
  constructor
  · intro hm
    rw [List.mem_map] at hm
    obtain ⟨a, ha, hup⟩ := hm
    exact (h a ha).1 ((toUpper_paren a).1 hup)
  · intro hm
    rw [List.mem_map] at hm
    obtain ⟨a, ha, hup⟩ := hm
    exact (h a ha).2 ((toUpper_paren a).2 hup)

/-- Common conclusion: when the normalized input has the shape
`P ++ "(" ++ upper(code) ++ ")"` with a parenthesis-free `P`, the resolver
extracts exactly the upper-cased code and agrees with resolving the code
alone. -/
theorem get_language_flag_of_shape (s code : String) (hs_ne : s ≠ "")
    (hcode : ∀ ch ∈ code.data, ch ≠ '(' ∧ ch ≠ ')')
    (P : List Char) (hP1 : '(' ∉ P) (hP2 : ')' ∉ P)
    (hX : (pyUpper (pyStrip s)).data = P ++ '(' :: (code.data.map Char.toUpper ++ [')'])) :
    get_language_flag s = get_language_flag code := by
  obtain ⟨hCU1, hCU2⟩ := map_toUpper_no_paren hcode
  have hc1 : pyContains (pyUpper (pyStrip s)) '(' = true := by
    show (pyUpper (pyStrip s)).data.contains '(' = true
    rw [hX]
    exact List.elem_eq_true_of_mem (by simp)
  have hc2 : pyContains (pyUpper (pyStrip s)) ')' = true := by
    show (pyUpper (pyStrip s)).data.contains ')' = true
    rw [hX]
    exact List.elem_eq_true_of_mem (by simp)
  rw [get_language_flag_eq s hs_ne, if_pos (by rw [hc1, hc2]; rfl)]
  rw [hX, slice_between hP1 hP2 hCU2]
  by_cases hc0 : code = ""
  · subst hc0
    rfl
  · rw [get_language_flag_eq code hc0]
    have hn1 : pyContains (pyUpper (pyStrip code)) '(' = false := by
      show (pyUpper (pyStrip code)).data.contains '(' = false
      apply contains_eq_false_of_not_mem
      intro hm
      have hm' : '(' ∈ (stripChars code.data).map Char.toUpper := hm
      rw [List.mem_map] at hm'
      obtain ⟨a, ha, hup⟩ := hm'
      exact (hcode a (mem_stripChars ha)).1 ((toUpper_paren a).1 hup)
    rw [if_neg (by rw [hn1]; simp)]
    show lookupFlag (String.mk (stripChars (code.data.map Char.toUpper)))
        = lookupFlag (String.mk ((stripChars code.data).map Char.toUpper))
    rw [stripChars_map_toUpper]

/-- C9 (amended): resolving the already-unwrapped code gives the same
glyph as resolving the parenthesized `name (code)` form, provided neither
the name nor the code contains a parenthesis character. -/
theorem c9_unwrap_idempotent (name code : String)
    (hname : ∀ ch ∈ name.data, ch ≠ '(' ∧ ch ≠ ')')
    (hcode : ∀ ch ∈ code.data, ch ≠ '(' ∧ ch ≠ ')') :
    get_language_flag (name ++ " (" ++ code ++ ")") = get_language_flag code := by
  have hsdata : (name ++ " (" ++ code ++ ")").data
      = name.data ++ (' ' :: '(' :: (code.data ++ [')'])) := by
    rw [String.data_append, String.data_append, String.data_append]
    simp
  have hs_ne : (name ++ " (" ++ code ++ ")") ≠ "" := by
    intro h
    have h2 : (name ++ " (" ++ code ++ ")").data = [] := by rw [h]
    rw [hsdata] at h2
    simp at h2
  have hsdata2 : (name ++ " (" ++ code ++ ")").data
      = (name.data ++ ' ' :: '(' :: code.data) ++ [')'] := by
    rw [hsdata]
    simp
  have hstrip : stripChars (name ++ " (" ++ code ++ ")").data
      = (name ++ " (" ++ code ++ ")").data.dropWhile Char.isWhitespace := by
    apply stripChars_eq_dropWhile (c := ')')
    · rw [hsdata2]
      exact List.getLast?_concat _
    · decide
  by_cases hN : name.data.dropWhile Char.isWhitespace = []
  · have hD : (name ++ " (" ++ code ++ ")").data.dropWhile Char.isWhitespace
        = '(' :: (code.data ++ [')']) := by
      rw [hsdata, List.dropWhile_append, hN]
      rw [if_pos (show ([] : List Char).isEmpty = true from rfl)]
      rw [List.dropWhile_cons_of_pos (by decide), List.dropWhile_cons_of_neg (by decide)]
    apply get_language_flag_of_shape _ code hs_ne hcode [] (by simp) (by simp)
    show (stripChars (name ++ " (" ++ code ++ ")").data).map Char.toUpper = _
    rw [hstrip, hD]
    simp [show Char.toUpper '(' = '(' from by decide, show Char.toUpper ')' = ')' from by decide]
  · have hD : (name ++ " (" ++ code ++ ")").data.dropWhile Char.isWhitespace
        = (name.data.dropWhile Char.isWhitespace) ++ (' ' :: '(' :: (code.data ++ [')'])) := by
      rw [hsdata, List.dropWhile_append]
      rw [if_neg (fun hE => hN (List.isEmpty_iff.mp hE))]
    have hNsub : ∀ ch ∈ name.data.dropWhile Char.isWhitespace, ch ≠ '(' ∧ ch ≠ ')' :=
      fun ch hch => hname ch ((List.dropWhile_sublist _).subset hch)
    obtain ⟨hNU1, hNU2⟩ := map_toUpper_no_paren hNsub
    apply get_language_flag_of_shape _ code hs_ne hcode
      ((name.data.dropWhile Char.isWhitespace).map Char.toUpper ++ [' '])
    · intro hm
      rw [List.mem_append] at hm
      rcases hm with hm | hm
      · exact hNU1 hm
      · rw [List.mem_singleton] at hm
        exact absurd hm (by decide)
    · intro hm
      rw [List.mem_append] at hm
      rcases hm with hm | hm
      · exact hNU2 hm
      · rw [List.mem_singleton] at hm
        exact absurd hm (by decide)
    · show (stripChars (name ++ " (" ++ code ++ ")").data).map Char.toUpper = _
      rw [hstrip, hD]
      simp [show Char.toUpper '(' = '(' from by decide, show Char.toUpper ')' = ')' from by decide,
        show Char.toUpper ' ' = ' ' from by decide]

/-- Witness for C9 (amended) at the spec example. -/
theorem c9_unwrap_idempotent_witness :
    get_language_flag ("Name" ++ " (" ++ "EN" ++ ")") = get_language_flag "EN" :=
  c9_unwrap_idempotent "Name" "EN" (by decide) (by decide)

/-- C9 counterexample to the claim as stated: a name containing a
parenthesis character breaks the equivalence, because the slice runs from
the first `(` of the whole string to its first `)`, which may lie inside
the name. -/
theorem c9_unwrap_counterexample :
    get_language_flag ("a)b" ++ " (" ++ "EN" ++ ")") = "" ∧
    get_language_flag "EN" = "🇺🇸" :=
  ⟨by decide, by decide⟩
